/-
Verification of the quork quote-bot core against its design specification.

The Lean definitions below are a shallow embedding of the Python source:
  * src/permissions.py   — permission resolver (is_admin, has_permission, can_edit, can_remove)
  * src/commands/quotes.py — quote commands, quote presentation footer, reaction-vote bridge
  * src/commands/moderation.py — the two privileged moderation gates
  * src/database.py      — table shapes and uniqueness constraints (quotes, quote_votes)
  * src/utils.py         — PaginatedView (pagination engine)

Database tables are modelled as Lean lists of row structures; the SQL statements the
code issues are modelled as the corresponding pure list transformations, including the
uniqueness constraints declared in src/database.py.  Python regular-expression calls
are modelled as character-list scanners with the same matching semantics.
-/
import Mathlib

namespace Quork

/-! ## Permission resolver (src/permissions.py) -/

/-- The fixed permission enumeration (src/permissions.py lines 4-9). -/
inductive Perm where
  | edit_own
  | edit_all
  | remove_own
  | remove_all
  | untimeout
  | change_nickname
  deriving DecidableEq, Repr

/-- A row of the `permissions` table (src/database.py lines 74-84).
`granted_by` and `created_at` play no role in any claim and are omitted;
the UNIQUE(guild_id, user_id, permission) constraint is irrelevant to the
resolver, which only tests row existence. -/
structure PermRow where
  guild_id : Nat
  user_id : Nat
  permission : Perm
  deriving DecidableEq, Repr

abbrev PermTable := List PermRow

/-- `is_admin` (src/permissions.py line 23): membership in the static ADMIN_IDS list
from config.py, passed here explicitly. -/
def is_admin (adminIds : List Nat) (user_id : Nat) : Bool :=
  adminIds.contains user_id

/-- `has_permission` (src/permissions.py line 28): SELECT 1 FROM permissions WHERE
guild_id=$1 AND user_id=$2 AND permission=$3 — true iff such a row exists. -/
def has_permission (t : PermTable) (guild_id user_id : Nat) (p : Perm) : Bool :=
  t.any (fun r => r.guild_id == guild_id && r.user_id == user_id && r.permission == p)

/-- `get_user_permissions` (src/permissions.py line 85): SELECT permission FROM
permissions WHERE guild_id=$1 AND user_id=$2. -/
def get_user_permissions (t : PermTable) (guild_id user_id : Nat) : List Perm :=
  (t.filter (fun r => r.guild_id == guild_id && r.user_id == user_id)).map (·.permission)

/-- `can_edit` (src/permissions.py lines 38-46): returns (can_edit_own, can_edit_all). -/
def can_edit (t : PermTable) (guild_id user_id : Nat) : Bool × Bool :=
  let perms := get_user_permissions t guild_id user_id
  let can_edit_all := perms.contains Perm.edit_all
  let can_edit_own := perms.contains Perm.edit_own || can_edit_all
  (can_edit_own, can_edit_all)

/-- `can_remove` (src/permissions.py lines 49-57): returns (can_remove_own, can_remove_all). -/
def can_remove (t : PermTable) (guild_id user_id : Nat) : Bool × Bool :=
  let perms := get_user_permissions t guild_id user_id
  let can_remove_all := perms.contains Perm.remove_all
  let can_remove_own := perms.contains Perm.remove_own || can_remove_all
  (can_remove_own, can_remove_all)

/-! ## Quote rows (src/database.py lines 32-42) -/

/-- A row of the `quotes` table.  `created_at` is modelled as a Nat timestamp. -/
structure QuoteRow where
  id : Nat
  guild_id : Nat
  author_name : Option String
  quote_text : String
  context : Option String
  added_by_id : Option Nat
  created_at : Nat
  deriving DecidableEq, Repr

/-- The `/quote edit` permission gate and candidate query
(src/commands/quotes.py lines 144-170, with the optional search/author filters
left at their None defaults, in which case the code adds no extra predicates).
Returns none when the command denies the actor ("You don't have permission to
edit quotes."), otherwise the candidate row set: all guild rows when
can_edit_all, else only rows the actor submitted.  The ORDER BY created_at DESC
ordering is not modelled; only the row set matters to the claims. -/
def edit_quote_candidates (perms : PermTable) (db : List QuoteRow)
    (guild_id user_id : Nat) : Option (List QuoteRow) :=
  let p := can_edit perms guild_id user_id
  if !p.1 && !p.2 then
    none
  else if p.2 then
    some (db.filter (fun r => r.guild_id == guild_id))
  else
    some (db.filter (fun r => r.guild_id == guild_id && r.added_by_id == some user_id))

/-- The `/quote remove` permission gate and candidate query
(src/commands/quotes.py lines 196-223, filters at their None defaults),
symmetric to `edit_quote_candidates` with can_remove. -/
def remove_quote_candidates (perms : PermTable) (db : List QuoteRow)
    (guild_id user_id : Nat) : Option (List QuoteRow) :=
  let p := can_remove perms guild_id user_id
  if !p.1 && !p.2 then
    none
  else if p.2 then
    some (db.filter (fun r => r.guild_id == guild_id))
  else
    some (db.filter (fun r => r.guild_id == guild_id && r.added_by_id == some user_id))

/-- The `/mod untimeout` permission gate (src/commands/moderation.py lines 17-21):
the command proceeds iff `is_admin(actor) or has_permission(..., UNTIMEOUT)`. -/
def untimeout_gate (adminIds : List Nat) (perms : PermTable) (guild_id user_id : Nat) : Bool :=
  is_admin adminIds user_id || has_permission perms guild_id user_id Perm.untimeout

/-- The `/mod nickname` permission gate (src/commands/moderation.py lines 40-44):
the command proceeds iff `is_admin(actor) or has_permission(..., CHANGE_NICKNAME)`. -/
def change_nickname_gate (adminIds : List Nat) (perms : PermTable) (guild_id user_id : Nat) : Bool :=
  is_admin adminIds user_id || has_permission perms guild_id user_id Perm.change_nickname

/-! ## Bridging lemmas for the permission resolver -/

theorem contains_eq_has_permission (t : PermTable) (g u : Nat) (p : Perm) :
    (get_user_permissions t g u).contains p = has_permission t g u p := by
  rw [Bool.eq_iff_iff]
  simp [get_user_permissions, has_permission, List.any_eq_true, List.mem_filter, and_assoc]

theorem decide_mem_eq_has_permission (t : PermTable) (g u : Nat) (p : Perm) :
    decide (p ∈ get_user_permissions t g u) = has_permission t g u p := by
  rw [Bool.eq_iff_iff, ← contains_eq_has_permission]
  simp [List.contains, List.elem_iff]

theorem no_grants_has_permission_false (t : PermTable) (g u : Nat) (p : Perm)
    (h : get_user_permissions t g u = []) : has_permission t g u p = false := by
  rw [← contains_eq_has_permission, h]
  rfl

theorem rights_pair_cases (a b : Bool) :
    ((a || b, b) = (true, true) ↔ b = true)
    ∧ ((a || b, b) = (true, false) ↔ (a = true ∧ b = false))
    ∧ ((a || b, b) = (false, false) ↔ (a = false ∧ b = false)) := by
  cases a <;> cases b <;> simp

theorem can_edit_eq (t : PermTable) (g u : Nat) :
    can_edit t g u =
      (has_permission t g u Perm.edit_own || has_permission t g u Perm.edit_all,
       has_permission t g u Perm.edit_all) := by
  simp [can_edit, decide_mem_eq_has_permission]

theorem can_remove_eq (t : PermTable) (g u : Nat) :
    can_remove t g u =
      (has_permission t g u Perm.remove_own || has_permission t g u Perm.remove_all,
       has_permission t g u Perm.remove_all) := by
  simp [can_remove, decide_mem_eq_has_permission]

/-- C1 (amended): for every permission table, guild g and user u, `can_edit` returns
(true, true) iff EDIT_ALL is granted to u in g; (true, false) iff EDIT_OWN is granted
but EDIT_ALL is not; and (false, false) iff neither is granted — irrespective of admin
status, which `can_edit`/`can_remove` never consult; symmetrically for `can_remove`
with REMOVE_ALL/REMOVE_OWN. -/
theorem c1_edit_remove_rights (t : PermTable) (g u : Nat) :
    (can_edit t g u = (true, true) ↔ has_permission t g u Perm.edit_all = true)
    ∧ (can_edit t g u = (true, false) ↔
        (has_permission t g u Perm.edit_own = true ∧ has_permission t g u Perm.edit_all = false))
    ∧ (can_edit t g u = (false, false) ↔
        (has_permission t g u Perm.edit_own = false ∧ has_permission t g u Perm.edit_all = false))
    ∧ (can_remove t g u = (true, true) ↔ has_permission t g u Perm.remove_all = true)
    ∧ (can_remove t g u = (true, false) ↔
        (has_permission t g u Perm.remove_own = true ∧ has_permission t g u Perm.remove_all = false))
    ∧ (can_remove t g u = (false, false) ↔
        (has_permission t g u Perm.remove_own = false ∧ has_permission t g u Perm.remove_all = false)) := by
  rw [can_edit_eq, can_remove_eq]
  exact ⟨(rights_pair_cases _ _).1, (rights_pair_cases _ _).2.1, (rights_pair_cases _ _).2.2,
         (rights_pair_cases _ _).1, (rights_pair_cases _ _).2.1, (rights_pair_cases _ _).2.2⟩

/-- C1 witness: a user granted only EDIT_ALL gets (true, true) from `can_edit`. -/
theorem c1_edit_remove_rights_witness :
    can_edit [⟨1, 2, Perm.edit_all⟩] 1 2 = (true, true) :=
  (c1_edit_remove_rights [⟨1, 2, Perm.edit_all⟩] 1 2).1.mpr (by decide)

/-- C1 counterexample: with ADMIN_IDS = [42], user 42 is an admin, yet in guild 5 with
an empty permission table `can_edit` (and `can_remove`) still returns (false, false):
the resolver never consults admin status, refuting the claim that an admin never
receives (false, false). -/
theorem c1_counterexample :
    is_admin [42] 42 = true
    ∧ can_edit ([] : PermTable) 5 42 = (false, false)
    ∧ can_remove ([] : PermTable) 5 42 = (false, false) := by
  decide

/-- C2 (amended): a user holding no permission grants at all in a guild is denied the
edit and remove operations outright — there is no implicit own-only default, even for
quotes they personally submitted — while the two privileged moderation gates
(untimeout, change-nickname) reduce exactly to admin status. -/
theorem c2_no_grants_denied (adminIds : List Nat) (perms : PermTable) (db : List QuoteRow)
    (g u : Nat) (h : get_user_permissions perms g u = []) :
    edit_quote_candidates perms db g u = none
    ∧ remove_quote_candidates perms db g u = none
    ∧ untimeout_gate adminIds perms g u = is_admin adminIds u
    ∧ change_nickname_gate adminIds perms g u = is_admin adminIds u := by
  have he : can_edit perms g u = (false, false) := by
    simp [can_edit, h]
  have hr : can_remove perms g u = (false, false) := by
    simp [can_remove, h]
  refine ⟨?_, ?_, ?_, ?_⟩
  · simp [edit_quote_candidates, he]
  · simp [remove_quote_candidates, hr]
  · simp [untimeout_gate, no_grants_has_permission_false _ _ _ _ h]
  · simp [change_nickname_gate, no_grants_has_permission_false _ _ _ _ h]

/-- C2 witness at a concrete grant-free configuration. -/
theorem c2_no_grants_denied_witness :
    edit_quote_candidates [] [] 1 7 = none
    ∧ remove_quote_candidates [] [] 1 7 = none
    ∧ untimeout_gate [] [] 1 7 = is_admin [] 7
    ∧ change_nickname_gate [] [] 1 7 = is_admin [] 7 :=
  c2_no_grants_denied [] [] [] 1 7 rfl

/-- C2 counterexample: non-admin user 7 submitted quote #1 in guild 1 and holds no
grants, yet `/quote edit` and `/quote remove` deny them (return none) rather than
offering their own quote — refuting the claimed implicit own-only default. -/
theorem c2_counterexample :
    is_admin [] 7 = false
    ∧ get_user_permissions [] 1 7 = []
    ∧ edit_quote_candidates [] [⟨1, 1, none, "hi", none, some 7, 0⟩] 1 7 = none
    ∧ remove_quote_candidates [] [⟨1, 1, none, "hi", none, some 7, 0⟩] 1 7 = none := by
  decide

/-! ## Decimal rendering and parsing (models Python str(int) / int(str)) -/

/-- The decimal digit characters. -/
def digitChar : Nat → Char
  | 0 => '0'
  | 1 => '1'
  | 2 => '2'
  | 3 => '3'
  | 4 => '4'
  | 5 => '5'
  | 6 => '6'
  | 7 => '7'
  | 8 => '8'
  | 9 => '9'
  | _ => '*'

/-- Numeric value of a decimal digit character. -/
def digitVal (c : Char) : Nat :=
  if c = '0' then 0
  else if c = '1' then 1
  else if c = '2' then 2
  else if c = '3' then 3
  else if c = '4' then 4
  else if c = '5' then 5
  else if c = '6' then 6
  else if c = '7' then 7
  else if c = '8' then 8
  else 9

/-- Little-endian decimal digits of the second argument; the first argument is
recursion fuel (any fuel ≥ the number suffices). -/
def natDigitsLEAux : Nat → Nat → List Nat
  | _, 0 => []
  | 0, _ + 1 => []
  | fuel + 1, n + 1 => ((n + 1) % 10) :: natDigitsLEAux fuel ((n + 1) / 10)

/-- Little-endian decimal digits of n (empty for 0). -/
def natDigitsLE (n : Nat) : List Nat := natDigitsLEAux n n

/-- Value of a little-endian digit list. -/
def ofDigitsLE (l : List Nat) : Nat := l.foldr (fun d acc => d + 10 * acc) 0

/-- Big-endian decimal character rendering of a Nat: models Python str(n). -/
def natDigits (n : Nat) : List Char :=
  if n = 0 then ['0'] else (natDigitsLE n).reverse.map digitChar

/-- Parse a big-endian digit-character list: models int(s) on the digit strings
the reaction bridge extracts. -/
def digitsToNat (l : List Char) : Nat :=
  l.foldl (fun acc c => 10 * acc + digitVal c) 0

theorem digitVal_digitChar {d : Nat} (h : d < 10) : digitVal (digitChar d) = d := by
  interval_cases d <;> rfl

theorem isDigit_digitChar {d : Nat} (h : d < 10) : (digitChar d).isDigit = true := by
  interval_cases d <;> decide

theorem natDigitsLEAux_lt_ten (fuel n : Nat) : ∀ d ∈ natDigitsLEAux fuel n, d < 10 := by
  induction fuel generalizing n with
  | zero =>
    cases n <;> simp [natDigitsLEAux]
  | succ fuel ih =>
    cases n with
    | zero => simp [natDigitsLEAux]
    | succ m =>
      simp only [natDigitsLEAux, List.mem_cons]
      rintro d (rfl | hd)
      · exact Nat.mod_lt _ (by omega)
      · exact ih _ d hd

theorem ofDigitsLE_natDigitsLEAux (fuel n : Nat) (h : n ≤ fuel) :
    ofDigitsLE (natDigitsLEAux fuel n) = n := by
  induction fuel generalizing n with
  | zero =>
    interval_cases n
    rfl
  | succ fuel ih =>
    cases n with
    | zero => rfl
    | succ m =>
      have hlt : (m + 1) / 10 ≤ fuel := by
        have := Nat.div_lt_self (Nat.succ_pos m) (by omega : 1 < 10)
        omega
      simp only [natDigitsLEAux, ofDigitsLE, List.foldr_cons]
      have := ih ((m + 1) / 10) hlt
      simp only [ofDigitsLE] at this
      rw [this]
      omega

theorem natDigitsLEAux_ne_nil (fuel n : Nat) (hn : 0 < n) (h : n ≤ fuel) :
    natDigitsLEAux fuel n ≠ [] := by
  cases fuel with
  | zero => omega
  | succ fuel =>
    cases n with
    | zero => omega
    | succ m => simp [natDigitsLEAux]

theorem natDigits_ne_nil (n : Nat) : natDigits n ≠ [] := by
  by_cases h : n = 0
  · simp [natDigits, h]
  · simp only [natDigits, if_neg h]
    intro hcon
    have := natDigitsLEAux_ne_nil n n (by omega) (le_refl n)
    simp only [natDigitsLE] at *
    simp at hcon
    exact this hcon

theorem natDigits_all_isDigit (n : Nat) : ∀ c ∈ natDigits n, c.isDigit = true := by
  intro c hc
  by_cases h : n = 0
  · simp [natDigits, h] at hc
    subst hc
    decide
  · simp only [natDigits, if_neg h, List.mem_map, List.mem_reverse] at hc
    obtain ⟨d, hd, rfl⟩ := hc
    exact isDigit_digitChar (natDigitsLEAux_lt_ten n n d hd)

theorem digitsToNat_natDigits (n : Nat) : digitsToNat (natDigits n) = n := by
  by_cases h : n = 0
  · subst h
    rfl
  · simp only [natDigits, natDigitsLE, if_neg h, digitsToNat, List.foldl_map, List.foldl_reverse]
    have key : ∀ l : List Nat, (∀ d ∈ l, d < 10) →
        l.foldr (fun a acc => 10 * acc + digitVal (digitChar a)) 0 = ofDigitsLE l := by
      intro l hl
      induction l with
      | nil => rfl
      | cons a t iht =>
        simp only [List.foldr_cons, ofDigitsLE]
        rw [iht (fun d hd => hl d (List.mem_cons_of_mem _ hd))]
        rw [digitVal_digitChar (hl a (List.mem_cons_self _ _))]
        simp only [ofDigitsLE]
        omega
    rw [key _ (natDigitsLEAux_lt_ten n n)]
    exact ofDigitsLE_natDigitsLEAux n n (le_refl n)

/-! ## Quote presentation footer (src/commands/quotes.py lines 29-51) -/

/-- Python str() of an Int. -/
def intChars (i : Int) : List Char :=
  if i < 0 then '-' :: natDigits i.natAbs else natDigits i.toNat

/-- The score token text (line 49): `f"+{score}" if score > 0 else str(score)`. -/
def score_str (score : Int) : List Char :=
  if score > 0 then '+' :: natDigits score.toNat else intChars score

/-- The "  •  " separator between footer fields (two spaces, bullet, two spaces). -/
def bulletSep : List Char := [' ', ' ', '•', ' ', ' ']

/-- Everything in the footer after the closing bracket of the score token:
"  •  {date_str}  •  {creator_name}  •  #{quote_id}". -/
def footer_tail (quote_id : Nat) (date_str creator_name : List Char) : List Char :=
  bulletSep ++ (date_str ++ (bulletSep ++ (creator_name ++ (bulletSep ++ ('#' :: natDigits quote_id)))))

/-- The embed footer set by `create_quote_embed` (line 50):
`f"[{score_str}]  •  {date_str}  •  {creator_name}  •  #{quote_id}"`. -/
def footer_chars (quote_id : Nat) (score : Int) (date_str creator_name : List Char) : List Char :=
  '[' :: (score_str score ++ (']' :: footer_tail quote_id date_str creator_name))

/-! ## Reaction-vote bridge regexes (src/commands/quotes.py lines 404-410, 443-446) -/

/-- Strip the optional sign `[+\-]?` at the head of the candidate digit run. -/
def stripSign : List Char → List Char
  | '+' :: r => r
  | '-' :: r => r
  | l => l

/-- After the opening '[' and optional sign: a nonempty greedy digit run `\d+`
followed by the closing ']'; returns the remainder after the token. -/
def tokenBody (x : List Char) : Option (List Char) :=
  if (x.takeWhile Char.isDigit).isEmpty then none
  else
    match x.dropWhile Char.isDigit with
    | ']' :: r => some r
    | _ => none

/-- One attempted match of the Python pattern `\[[+\-]?\d+\]` at the head of the
list: returns the remainder after the matched token, or none when no match
starts here. -/
def matchToken (l : List Char) : Option (List Char) :=
  match l with
  | '[' :: rest => tokenBody (stripSign rest)
  | _ => none

/-- Whether the token pattern matches anywhere in the list (re.search semantics). -/
def hasToken : List Char → Bool
  | [] => false
  | c :: cs => (matchToken (c :: cs)).isSome || hasToken cs

/-- re.sub of the token pattern: replace every non-overlapping occurrence,
scanning left to right.  The Nat argument is recursion fuel; fuel ≥ length
always suffices since every step consumes at least one character. -/
def reSubAux (repl : List Char) : Nat → List Char → List Char
  | _, [] => []
  | 0, l => l
  | fuel + 1, c :: cs =>
    match matchToken (c :: cs) with
    | some rest => repl ++ reSubAux repl fuel rest
    | none => c :: reSubAux repl fuel cs

/-- `re.sub(r"\[[+\-]?\d+\]", repl, l)`. -/
def reSub (repl l : List Char) : List Char := reSubAux repl l.length l

/-- The bridge's footer rewrite (lines 444-446):
`re.sub(r"\[[+\-]?\d+\]", f"[{score_str}]", footer)` with the fresh score. -/
def update_footer_score (new_score : Int) (footer : List Char) : List Char :=
  reSub ('[' :: (score_str new_score ++ [']'])) footer

/-- `re.search(r"#(\d+)$", footer)` followed by `int(match.group(1))`
(lines 404-409): the match exists at the leftmost position whose '#' is
followed by a nonempty all-digit suffix running to the end of the string. -/
def extract_quote_id : List Char → Option Nat
  | [] => none
  | c :: cs =>
    if c = '#' ∧ cs ≠ [] ∧ cs.all Char.isDigit then some (digitsToNat cs)
    else extract_quote_id cs

/-! ## takeWhile/dropWhile boundary lemmas -/

theorem matchToken_bracket (X : List Char) : matchToken ('[' :: X) = tokenBody (stripSign X) :=
  rfl

theorem matchToken_cons_ne {c : Char} (cs : List Char) (h : c ≠ '[') :
    matchToken (c :: cs) = none := by
  unfold matchToken
  split
  · rename_i heq
    rw [List.cons.injEq] at heq
    exact absurd heq.1 h
  · rfl

theorem stripSign_plus (r : List Char) : stripSign ('+' :: r) = r :=
  rfl

theorem stripSign_minus (r : List Char) : stripSign ('-' :: r) = r :=
  rfl

theorem stripSign_of_ne {c : Char} (r : List Char) (h1 : c ≠ '+') (h2 : c ≠ '-') :
    stripSign (c :: r) = c :: r := by
  unfold stripSign
  split
  · rename_i heq
    rw [List.cons.injEq] at heq
    exact absurd heq.1 h1
  · rename_i heq
    rw [List.cons.injEq] at heq
    exact absurd heq.1 h2
  · rfl

theorem digit_ne_plus {c : Char} (h : c.isDigit = true) : c ≠ '+' := by
  intro heq
  rw [heq] at h
  exact absurd h (by decide)

theorem digit_ne_minus {c : Char} (h : c.isDigit = true) : c ≠ '-' := by
  intro heq
  rw [heq] at h
  exact absurd h (by decide)

theorem ne_bracket_of_isDigit {c : Char} (h : c.isDigit = true) : c ≠ '[' := by
  intro heq
  rw [heq] at h
  exact absurd h (by decide)

theorem takeWhile_append_of_neg {p : Char → Bool} {z : Char} (hz : p z = false)
    (w zs : List Char) : (w ++ z :: zs).takeWhile p = w.takeWhile p := by
  induction w with
  | nil => simp [List.takeWhile_cons, hz]
  | cons a w ih =>
    simp only [List.cons_append, List.takeWhile_cons]
    cases p a <;> simp [ih]

theorem dropWhile_append_of_neg {p : Char → Bool} {z : Char} (hz : p z = false)
    (w zs : List Char) : (w ++ z :: zs).dropWhile p = w.dropWhile p ++ z :: zs := by
  induction w with
  | nil => simp [List.dropWhile_cons, hz]
  | cons a w ih =>
    simp only [List.cons_append, List.dropWhile_cons]
    cases p a <;> simp [ih]

theorem takeWhile_all {p : Char → Bool} (w : List Char) (h : ∀ c ∈ w, p c = true) :
    w.takeWhile p = w := by
  induction w with
  | nil => rfl
  | cons a w ih =>
    simp only [List.takeWhile_cons, h a (List.mem_cons_self _ _)]
    simp [ih (fun c hc => h c (List.mem_cons_of_mem _ hc))]

theorem dropWhile_all {p : Char → Bool} (w : List Char) (h : ∀ c ∈ w, p c = true) :
    w.dropWhile p = [] := by
  induction w with
  | nil => rfl
  | cons a w ih =>
    simp only [List.dropWhile_cons, h a (List.mem_cons_self _ _)]
    simp [ih (fun c hc => h c (List.mem_cons_of_mem _ hc))]

theorem tokenBody_digits (w R : List Char) (hne : w ≠ []) (hdig : ∀ c ∈ w, c.isDigit = true) :
    tokenBody (w ++ (']' :: R)) = some R := by
  cases w with
  | nil => exact absurd rfl hne
  | cons a w' =>
    unfold tokenBody
    rw [takeWhile_append_of_neg (by decide), takeWhile_all _ hdig,
        dropWhile_append_of_neg (by decide), dropWhile_all _ hdig]
    simp

theorem stripSign_digits {w : List Char} (X : List Char) (hne : w ≠ [])
    (hdig : ∀ c ∈ w, c.isDigit = true) : stripSign (w ++ X) = w ++ X := by
  cases w with
  | nil => exact absurd rfl hne
  | cons a w' =>
    rw [List.cons_append]
    exact stripSign_of_ne _
      (digit_ne_plus (hdig a (List.mem_cons_self _ _)))
      (digit_ne_minus (hdig a (List.mem_cons_self _ _)))

/-- The footer always starts with a full score token; matching it leaves exactly
the footer tail. -/
theorem matchToken_footer (quote_id : Nat) (s : Int) (d n : List Char) :
    matchToken (footer_chars quote_id s d n) = some (footer_tail quote_id d n) := by
  unfold footer_chars score_str intChars
  by_cases h1 : s > 0
  · simp only [if_pos h1, List.cons_append]
    rw [matchToken_bracket, stripSign_plus]
    exact tokenBody_digits _ _ (natDigits_ne_nil _) (natDigits_all_isDigit _)
  · simp only [if_neg h1]
    by_cases h2 : s < 0
    · simp only [if_pos h2, List.cons_append]
      rw [matchToken_bracket, stripSign_minus]
      exact tokenBody_digits _ _ (natDigits_ne_nil _) (natDigits_all_isDigit _)
    · simp only [if_neg h2]
      rw [matchToken_bracket, stripSign_digits _ (natDigits_ne_nil _) (natDigits_all_isDigit _)]
      exact tokenBody_digits _ _ (natDigits_ne_nil _) (natDigits_all_isDigit _)

/-- Whether the token pattern can match at some position is unaffected by
appending text after a following space (a space can neither start, continue,
nor close a token). -/
theorem tokenBody_append_space (x v : List Char) :
    (tokenBody (x ++ (' ' :: v))).isSome = (tokenBody x).isSome := by
  unfold tokenBody
  rw [takeWhile_append_of_neg (by decide), dropWhile_append_of_neg (by decide)]
  by_cases hemp : (x.takeWhile Char.isDigit).isEmpty = true
  · simp [hemp]
  · simp only [hemp, if_false, Bool.false_eq_true]
    cases hdw : x.dropWhile Char.isDigit with
    | nil => simp
    | cons h t =>
      by_cases hh : h = ']'
      · subst hh
        simp
      · rw [List.cons_append]
        cases h' : h.val  -- dummy to avoid structure; replaced below
        all_goals
          simp_all

theorem matchToken_append_space (u v : List Char) :
    (matchToken (u ++ (' ' :: v))).isSome = (matchToken u).isSome := by
  cases u with
  | nil =>
    rw [List.nil_append, matchToken_cons_ne _ (by decide)]
    rfl
  | cons c u' =>
    by_cases hc : c = '['
    · subst hc
      rw [List.cons_append, matchToken_bracket, matchToken_bracket]
      cases u' with
      | nil =>
        rw [List.nil_append, stripSign_of_ne _ (by decide) (by decide)]
        rfl
      | cons a r =>
        by_cases ha1 : a = '+'
        · subst ha1
          rw [List.cons_append, stripSign_plus, stripSign_plus]
          exact tokenBody_append_space r v
        · by_cases ha2 : a = '-'
          · subst ha2
            rw [List.cons_append, stripSign_minus, stripSign_minus]
            exact tokenBody_append_space r v
          · rw [List.cons_append, stripSign_of_ne _ ha1 ha2, stripSign_of_ne _ ha1 ha2,
                ← List.cons_append]
            exact tokenBody_append_space (a :: r) v
    · rw [List.cons_append, matchToken_cons_ne _ hc, matchToken_cons_ne _ hc]

theorem hasToken_cons_ne {c : Char} (cs : List Char) (h : c ≠ '[') :
    hasToken (c :: cs) = hasToken cs := by
  simp [hasToken, matchToken_cons_ne _ h]

theorem hasToken_of_no_bracket (l : List Char) (h : ∀ c ∈ l, c ≠ '[') :
    hasToken l = false := by
  induction l with
  | nil => rfl
  | cons c cs ih =>
    rw [hasToken_cons_ne cs (h c (List.mem_cons_self _ _))]
    exact ih fun x hx => h x (List.mem_cons_of_mem _ hx)

theorem hasToken_append_space (A B : List Char) :
    hasToken (A ++ (' ' :: B)) = (hasToken A || hasToken (' ' :: B)) := by
  induction A with
  | nil => simp [hasToken]
  | cons a A' ih =>
    rw [List.cons_append]
    have e1 : hasToken (a :: (A' ++ (' ' :: B)))
        = ((matchToken (a :: (A' ++ (' ' :: B)))).isSome || hasToken (A' ++ (' ' :: B))) := rfl
    have e2 : hasToken (a :: A') = ((matchToken (a :: A')).isSome || hasToken A') := rfl
    rw [e1, e2, ← List.cons_append, matchToken_append_space (a :: A') B, ih, Bool.or_assoc]

theorem hasToken_footer_tail (quote_id : Nat) (d n : List Char)
    (hd : hasToken d = false) (hn : hasToken n = false) :
    hasToken (footer_tail quote_id d n) = false := by
  unfold footer_tail bulletSep
  simp only [List.cons_append, List.nil_append]
  rw [hasToken_cons_ne _ (by decide), hasToken_cons_ne _ (by decide),
      hasToken_cons_ne _ (by decide), hasToken_cons_ne _ (by decide),
      hasToken_cons_ne _ (by decide)]
  rw [hasToken_append_space, hd, Bool.false_or,
      hasToken_cons_ne _ (by decide), hasToken_cons_ne _ (by decide),
      hasToken_cons_ne _ (by decide), hasToken_cons_ne _ (by decide),
      hasToken_cons_ne _ (by decide)]
  rw [hasToken_append_space, hn, Bool.false_or,
      hasToken_cons_ne _ (by decide), hasToken_cons_ne _ (by decide),
      hasToken_cons_ne _ (by decide), hasToken_cons_ne _ (by decide),
      hasToken_cons_ne _ (by decide), hasToken_cons_ne _ (by decide)]
  exact hasToken_of_no_bracket _
    (fun c hc => ne_bracket_of_isDigit (natDigits_all_isDigit quote_id c hc))

theorem reSubAux_no_token (repl : List Char) (fuel : Nat) (l : List Char)
    (h : hasToken l = false) : reSubAux repl fuel l = l := by
  induction fuel generalizing l with
  | zero => cases l <;> rfl
  | succ fuel ih =>
    cases l with
    | nil => rfl
    | cons c cs =>
      have h' : (matchToken (c :: cs)).isSome = false ∧ hasToken cs = false := by
        have : ((matchToken (c :: cs)).isSome || hasToken cs) = false := h
        exact ⟨by cases hx : (matchToken (c :: cs)).isSome <;> simp_all,
               by cases hx : hasToken cs <;> simp_all⟩
      have h1 : matchToken (c :: cs) = none := by
        cases hm : matchToken (c :: cs) with
        | none => rfl
        | some r => rw [hm] at h'; simp at h'
      simp only [reSubAux, h1]
      rw [ih cs h'.2]

/-- A string that is one full token followed by token-free text: re.sub replaces
the token and leaves the rest byte-for-byte unchanged. -/
theorem reSub_single (repl l r : List Char) (hm : matchToken l = some r)
    (hr : hasToken r = false) : reSub repl l = repl ++ r := by
  cases l with
  | nil => exact absurd hm (by simp [matchToken])
  | cons c cs =>
    show reSubAux repl (c :: cs).length (c :: cs) = repl ++ r
    rw [List.length_cons]
    simp only [reSubAux, hm]
    rw [reSubAux_no_token repl cs.length r hr]

/-- C3 (amended): an accepted vote change rewrites only the bracketed score token
in a footer previously produced by `create_quote_embed`, leaving the date, the
display name, and the #id byte-for-byte unchanged — provided neither the date
string nor the display name itself contains a bracketed-integer token (the code
performs a global re.sub, so a token occurring inside those fields would be
rewritten as well). -/
theorem c3_footer_rewrite (quote_id : Nat) (s s' : Int) (d n : List Char)
    (hd : hasToken d = false) (hn : hasToken n = false) :
    update_footer_score s' (footer_chars quote_id s d n) = footer_chars quote_id s' d n := by
  unfold update_footer_score
  rw [reSub_single _ _ _ (matchToken_footer quote_id s d n)
      (hasToken_footer_tail quote_id d n hd hn)]
  simp [footer_chars, List.append_assoc]

/-- C3 witness: rewriting the footer of quote #3 ("Oct", submitter "Ali") from
score +1 to +2 changes only the score token. -/
theorem c3_footer_rewrite_witness :
    update_footer_score 2 (footer_chars 3 1 ['O', 'c', 't'] ['A', 'l', 'i'])
      = footer_chars 3 2 ['O', 'c', 't'] ['A', 'l', 'i'] :=
  c3_footer_rewrite 3 1 2 ['O', 'c', 't'] ['A', 'l', 'i'] rfl rfl

/-- C3 counterexample: for the display name "[0]", the claimed frame property
fails — the global re.sub also rewrites the name field, so the result differs
from the footer with only the score token updated (the name comes out "[+2]"). -/
theorem c3_counterexample :
    update_footer_score 2 (footer_chars 3 1 ['d'] ['[', '0', ']'])
      ≠ footer_chars 3 2 ['d'] ['[', '0', ']']
    ∧ update_footer_score 2 (footer_chars 3 1 ['d'] ['[', '0', ']'])
      = footer_chars 3 2 ['d'] ['[', '+', '2', ']'] := by
  constructor
  · decide
  · decide

theorem extract_append_hash (u ds : List Char) (hne : ds ≠ [])
    (hdig : ∀ c ∈ ds, c.isDigit = true) :
    extract_quote_id (u ++ ('#' :: ds)) = some (digitsToNat ds) := by
  induction u with
  | nil =>
    rw [List.nil_append]
    unfold extract_quote_id
    rw [if_pos ⟨rfl, hne, by rw [List.all_eq_true]; exact hdig⟩]
  | cons a u' ih =>
    rw [List.cons_append]
    unfold extract_quote_id
    rw [if_neg, ih]
    rintro ⟨-, -, h3⟩
    rw [List.all_eq_true] at h3
    exact absurd (h3 '#' (by simp)) (by decide)

/-- C4: every footer produced by the presentation function ends with '#' followed
by the decimal digits of the quote id, begins with a bracketed signed-or-zero
score token (the bridge's token pattern matches at its head), and the bridge's
end-anchored `#(\d+)$` extraction recovers exactly the original id — for every
id, score, date string and display name. -/
theorem c4_footer_id_roundtrip (quote_id : Nat) (s : Int) (d n : List Char) :
    (∃ u, footer_chars quote_id s d n = u ++ ('#' :: natDigits quote_id))
    ∧ (matchToken (footer_chars quote_id s d n)).isSome = true
    ∧ extract_quote_id (footer_chars quote_id s d n) = some quote_id := by
  have hdecomp : footer_chars quote_id s d n =
      ('[' :: (score_str s ++ (']' :: (bulletSep ++ (d ++ (bulletSep ++ (n ++ bulletSep)))))))
        ++ ('#' :: natDigits quote_id) := by
    simp [footer_chars, footer_tail, List.append_assoc]
  refine ⟨⟨_, hdecomp⟩, ?_, ?_⟩
  · rw [matchToken_footer]
    rfl
  · rw [hdecomp, extract_append_hash _ _ (natDigits_ne_nil _) (natDigits_all_isDigit _),
        digitsToNat_natDigits]

/-! ## Vote table (src/database.py lines 87-95) and the bridge's vote operations -/

/-- A row of the `quote_votes` table: PRIMARY KEY (quote_id, user_id),
vote SMALLINT CHECK (vote IN (1, -1)); `created_at` plays no role in any claim. -/
structure VoteRow where
  quote_id : Nat
  user_id : Nat
  vote : Int
  deriving DecidableEq, Repr

abbrev VoteTable := List VoteRow

/-- The PRIMARY KEY (quote_id, user_id) invariant: no two rows share a key. -/
def KeyUnique (t : VoteTable) : Prop :=
  t.Pairwise (fun a b => ¬(a.quote_id = b.quote_id ∧ a.user_id = b.user_id))

def voteKeyMatch (q u : Nat) (r : VoteRow) : Bool :=
  r.quote_id == q && r.user_id == u

/-- The reaction-add upsert (src/commands/quotes.py lines 415-421):
INSERT INTO quote_votes (quote_id, user_id, vote) VALUES ($1,$2,$3)
ON CONFLICT (quote_id, user_id) DO UPDATE SET vote=$3. -/
def castOrReplace (t : VoteTable) (q u : Nat) (v : Int) : VoteTable :=
  if t.any (voteKeyMatch q u) then
    t.map (fun r => if voteKeyMatch q u r then { r with vote := v } else r)
  else
    t ++ [⟨q, u, v⟩]

/-- The reaction-remove conditional delete (lines 425-431):
DELETE FROM quote_votes WHERE quote_id=$1 AND user_id=$2 AND vote=$3, paired
with the `result != "DELETE 0"` report of whether a row was removed. -/
def retract (t : VoteTable) (q u : Nat) (expected : Int) : VoteTable × Bool :=
  (t.filter (fun r => !(voteKeyMatch q u r && r.vote == expected)),
   t.any (fun r => voteKeyMatch q u r && r.vote == expected))

/-! ## Vote-upsert lemmas -/

theorem voteKeyMatch_eq (q u : Nat) (r : VoteRow) :
    voteKeyMatch q u r = true ↔ (r.quote_id = q ∧ r.user_id = u) := by
  simp [voteKeyMatch]

theorem castOrReplace_key_unique (t : VoteTable) (q u : Nat) (v : Int) (hU : KeyUnique t) :
    KeyUnique (castOrReplace t q u v) := by
  unfold castOrReplace
  by_cases hany : t.any (voteKeyMatch q u) = true
  · rw [if_pos hany]
    rw [KeyUnique, List.pairwise_map]
    apply hU.imp_of_mem
    intro a b _ _ hR
    by_cases ha : voteKeyMatch q u a = true <;> by_cases hb : voteKeyMatch q u b = true <;>
      simp [ha, hb] <;> exact fun h1 h2 => hR ⟨h1, h2⟩
  · rw [if_neg hany]
    rw [KeyUnique, List.pairwise_append]
    refine ⟨hU, List.pairwise_singleton _ _, ?_⟩
    intro a ha b hb
    have hb' : b = (⟨q, u, v⟩ : VoteRow) := by simpa using hb
    subst hb'
    intro ⟨h1, h2⟩
    rw [List.any_eq_true] at hany
    exact hany ⟨a, ha, (voteKeyMatch_eq q u a).mpr ⟨h1, h2⟩⟩

theorem filter_key_nil_of_not_any (t : VoteTable) (q u : Nat)
    (hany : ¬ t.any (voteKeyMatch q u) = true) :
    t.filter (voteKeyMatch q u) = [] := by
  rw [List.filter_eq_nil_iff]
  intro a ha hmatch
  rw [List.any_eq_true] at hany
  exact hany ⟨a, ha, hmatch⟩

theorem castOrReplace_filter (t : VoteTable) (q u : Nat) (v : Int) (hU : KeyUnique t) :
    (castOrReplace t q u v).filter (voteKeyMatch q u) = [⟨q, u, v⟩] := by
  unfold castOrReplace
  by_cases hany : t.any (voteKeyMatch q u) = true
  · rw [if_pos hany]
    induction t with
    | nil => simp at hany
    | cons r t' ih =>
      have hU' : KeyUnique t' := hU.of_cons
      have hhead : ∀ b ∈ t', ¬(r.quote_id = b.quote_id ∧ r.user_id = b.user_id) :=
        fun b hb => List.rel_of_pairwise_cons hU hb
      by_cases hr : voteKeyMatch q u r = true
      · have hnone : ∀ b ∈ t', voteKeyMatch q u b = false := by
          intro b hb
          cases hbm : voteKeyMatch q u b with
          | false => rfl
          | true =>
            obtain ⟨h1, h2⟩ := (voteKeyMatch_eq q u b).mp hbm
            obtain ⟨h3, h4⟩ := (voteKeyMatch_eq q u r).mp hr
            exact absurd ⟨h3.trans h1.symm, h4.trans h2.symm⟩ (hhead b hb)
        obtain ⟨h1, h2⟩ := (voteKeyMatch_eq q u r).mp hr
        rw [List.map_cons, if_pos hr, List.filter_cons]
        have hupd : voteKeyMatch q u { r with vote := v } = true :=
          (voteKeyMatch_eq q u _).mpr ⟨h1, h2⟩
        rw [if_pos hupd]
        have hrest : (t'.map (fun r => if voteKeyMatch q u r then { r with vote := v } else r)).filter
            (voteKeyMatch q u) = [] := by
          rw [List.filter_eq_nil_iff]
          intro b hb
          rw [List.mem_map] at hb
          obtain ⟨b0, hb0, rfl⟩ := hb
          rw [if_neg (by simp [hnone b0 hb0])]
          simp [hnone b0 hb0]
        rw [hrest]
        have : ({ r with vote := v } : VoteRow) = ⟨q, u, v⟩ := by
          cases r
          simp_all
        rw [this]
      · rw [List.map_cons, if_neg hr, List.filter_cons, if_neg (by simp [hr])]
        apply ih hU'
        cases hany' : t'.any (voteKeyMatch q u) with
        | true => rfl
        | false =>
          rw [List.any_cons] at hany
          simp [hr, hany'] at hany
  · rw [if_neg hany, List.filter_append, filter_key_nil_of_not_any t q u hany,
        List.nil_append, List.filter_cons]
    rw [if_pos ((voteKeyMatch_eq q u _).mpr ⟨rfl, rfl⟩)]
    rfl

/-- C5: the vote relation keeps at most one row per (quote, voter) pair — casting
twice from the same voter with different values in {+1, -1} (the reaction-add
upsert) leaves exactly one vote row for the pair, holding the latest value, and
preserves the key-uniqueness invariant of the table. -/
theorem c5_upsert_overwrites (t : VoteTable) (q u : Nat) (a b : Int) (hU : KeyUnique t)
    (ha : a = 1 ∨ a = -1) (hb : b = 1 ∨ b = -1) (hab : a ≠ b) :
    (castOrReplace (castOrReplace t q u a) q u b).filter (voteKeyMatch q u) = [⟨q, u, b⟩]
    ∧ KeyUnique (castOrReplace (castOrReplace t q u a) q u b) := by
  have h1 := castOrReplace_key_unique t q u a hU
  exact ⟨castOrReplace_filter _ q u b h1, castOrReplace_key_unique _ q u b h1⟩

/-- C5 witness: voter 2 casts +1 then -1 on quote 1 starting from an empty table. -/
theorem c5_upsert_overwrites_witness :
    (castOrReplace (castOrReplace [] 1 2 1) 1 2 (-1)).filter (voteKeyMatch 1 2)
      = [⟨1, 2, -1⟩] :=
  (c5_upsert_overwrites [] 1 2 1 (-1) List.Pairwise.nil (Or.inl rfl) (Or.inr rfl)
    (by decide)).1

/-- C6: the reaction-remove path deletes the stored vote row only when its value
equals the removed emoji's direction, reports truthfully whether a row was
removed, and is a no-op on the table when it reports that nothing was removed. -/
theorem c6_retract_conditional (t : VoteTable) (q u : Nat) (e : Int) :
    ((retract t q u e).2 = true ↔ (⟨q, u, e⟩ : VoteRow) ∈ t)
    ∧ ((retract t q u e).2 = false → (retract t q u e).1 = t)
    ∧ (∀ r : VoteRow, r ∈ (retract t q u e).1 ↔ (r ∈ t ∧ r ≠ ⟨q, u, e⟩)) := by
  refine ⟨?_, ?_, ?_⟩
  · show t.any _ = true ↔ _
    rw [List.any_eq_true]
    constructor
    · rintro ⟨r, hr, hm⟩
      rw [Bool.and_eq_true, voteKeyMatch_eq, beq_iff_eq] at hm
      obtain ⟨⟨h1, h2⟩, h3⟩ := hm
      have : r = (⟨q, u, e⟩ : VoteRow) := by
        cases r
        simp_all
      exact this ▸ hr
    · intro hmem
      exact ⟨⟨q, u, e⟩, hmem, by simp [voteKeyMatch]⟩
  · intro hfalse
    show t.filter _ = t
    rw [List.filter_eq_self]
    intro r hr
    cases hm : (voteKeyMatch q u r && r.vote == e) with
    | false => rfl
    | true =>
      have : (retract t q u e).2 = true := by
        show t.any _ = true
        rw [List.any_eq_true]
        exact ⟨r, hr, hm⟩
      rw [this] at hfalse
      cases hfalse
  · intro r
    show r ∈ t.filter _ ↔ _
    rw [List.mem_filter]
    constructor
    · rintro ⟨hr, hm⟩
      refine ⟨hr, ?_⟩
      rintro rfl
      simp [voteKeyMatch] at hm
    · rintro ⟨hr, hne⟩
      refine ⟨hr, ?_⟩
      cases hm : (voteKeyMatch q u r && r.vote == e) with
      | false => rfl
      | true =>
        rw [Bool.and_eq_true, voteKeyMatch_eq, beq_iff_eq] at hm
        obtain ⟨⟨h1, h2⟩, h3⟩ := hm
        have : r = (⟨q, u, e⟩ : VoteRow) := by
          cases r
          simp_all
        exact absurd this hne

/-- C6 witness: retracting with expected value -1 while the stored vote is +1
leaves the table unchanged (the mismatch branch reports nothing removed). -/
theorem c6_retract_conditional_witness :
    (retract [⟨1, 2, 1⟩] 1 2 (-1)).1 = [⟨1, 2, 1⟩] :=
  (c6_retract_conditional [⟨1, 2, 1⟩] 1 2 (-1)).2.1 (by decide)

/-! ## Quote score (src/commands/quotes.py lines 22-26) -/

/-- SELECT SUM(vote) FROM quote_votes WHERE quote_id=$1 — SQL SUM is NULL (none)
when no rows match. -/
def sql_sum_votes (t : VoteTable) (q : Nat) : Option Int :=
  let vs := (t.filter (fun r => r.quote_id == q)).map VoteRow.vote
  if vs.isEmpty then none else some vs.sum

/-- Python `return val or 0` (line 26): None and 0 are both falsy and yield 0. -/
def pyIntOr0 : Option Int → Int
  | none => 0
  | some x => if x = 0 then 0 else x

/-- `get_quote_score` (lines 22-26). -/
def get_quote_score (t : VoteTable) (q : Nat) : Int :=
  pyIntOr0 (sql_sum_votes t q)

/-- C8: the score operation returns exactly the sum of the currently stored vote
values for the quote, and 0 when no vote rows exist for it. -/
theorem c8_score_is_sum (t : VoteTable) (q : Nat) :
    get_quote_score t q = ((t.filter (fun r => r.quote_id == q)).map VoteRow.vote).sum
    ∧ (t.filter (fun r => r.quote_id == q) = [] → get_quote_score t q = 0) := by
  have key : ∀ vs : List Int, pyIntOr0 (if vs.isEmpty then none else some vs.sum) = vs.sum := by
    intro vs
    cases vs with
    | nil => rfl
    | cons x l =>
      show pyIntOr0 (some (x :: l).sum) = (x :: l).sum
      simp only [pyIntOr0]
      by_cases h : (x :: l).sum = 0
      · rw [if_pos h, h]
      · rw [if_neg h]
  have h1 : get_quote_score t q = ((t.filter (fun r => r.quote_id == q)).map VoteRow.vote).sum := by
    unfold get_quote_score sql_sum_votes
    exact key _
  exact ⟨h1, fun h => by rw [h1, h]; rfl⟩

/-- C8 witness: an empty vote table gives score 0. -/
theorem c8_score_is_sum_witness : get_quote_score [] 5 = 0 :=
  (c8_score_is_sum [] 5).2 rfl

/-! ## Quote store: /quote add (src/commands/quotes.py lines 79-98) -/

/-- The quotes relation together with the BIGSERIAL id sequence. -/
structure QuotesDB where
  rows : List QuoteRow
  next_id : Nat
  deriving DecidableEq, Repr

/-- The BIGSERIAL invariant: every existing id is below the sequence value. -/
def IdsBelowNext (db : QuotesDB) : Prop :=
  ∀ r ∈ db.rows, r.id < db.next_id

/-- `/quote add` (lines 79-98): INSERT INTO quotes (guild_id, author_name,
quote_text, context, added_by_id) VALUES (...) RETURNING id.  The unique index
quotes_guild_text_idx ON (guild_id, quote_text) (src/database.py lines 68-70)
raises UniqueViolationError — caught and reported as "This quote already exists
in the server!" — when the guild already stores the same text, leaving the table
unchanged.  Returns the resulting database and `some id` on success, `none` on
conflict. -/
def add_quote (db : QuotesDB) (guild_id : Nat) (author : Option String) (text : String)
    (ctx : Option String) (added_by : Nat) (now : Nat) : QuotesDB × Option Nat :=
  if db.rows.any (fun r => r.guild_id == guild_id && r.quote_text == text) then
    (db, none)
  else
    ({ rows := db.rows ++ [⟨db.next_id, guild_id, author, text, ctx, some added_by, now⟩],
       next_id := db.next_id + 1 }, some db.next_id)

/-- C7: adding text t to guild g twice yields exactly one stored (g, t) row; the
second add reports a conflict and performs no write at all; and adding the same
text to a different guild g2 succeeds with a fresh id — the uniqueness of
(guild_id, quote_text) is scoped per guild. -/
theorem c7_per_guild_uniqueness (db : QuotesDB) (g g2 : Nat) (t : String)
    (a a' a2 c c' c2 : Option String) (u u' u2 now now' now2 : Nat)
    (hg : g2 ≠ g)
    (h0 : db.rows.any (fun r => r.guild_id == g && r.quote_text == t) = false)
    (h02 : db.rows.any (fun r => r.guild_id == g2 && r.quote_text == t) = false)
    (hids : IdsBelowNext db) :
    (add_quote db g a t c u now).2 = some db.next_id
    ∧ (add_quote (add_quote db g a t c u now).1 g a' t c' u' now').2 = none
    ∧ (add_quote (add_quote db g a t c u now).1 g a' t c' u' now').1
        = (add_quote db g a t c u now).1
    ∧ ((add_quote db g a t c u now).1.rows.filter
        (fun r => r.guild_id == g && r.quote_text == t)).length = 1
    ∧ (∃ id2, (add_quote (add_quote db g a t c u now).1 g2 a2 t c2 u2 now2).2 = some id2
        ∧ ∀ r ∈ (add_quote db g a t c u now).1.rows, r.id ≠ id2) := by
  have hnot : ¬ db.rows.any (fun r => r.guild_id == g && r.quote_text == t) = true := by
    rw [h0]
    exact Bool.false_ne_true
  have hstep : add_quote db g a t c u now =
      ({ rows := db.rows ++ [⟨db.next_id, g, a, t, c, some u, now⟩],
         next_id := db.next_id + 1 }, some db.next_id) := by
    unfold add_quote
    rw [if_neg hnot]
  rw [hstep]
  have hdup : (db.rows ++ [(⟨db.next_id, g, a, t, c, some u, now⟩ : QuoteRow)]).any
      (fun r => r.guild_id == g && r.quote_text == t) = true := by
    rw [List.any_append]
    simp
  have hdup2 : (db.rows ++ [(⟨db.next_id, g, a, t, c, some u, now⟩ : QuoteRow)]).any
      (fun r => r.guild_id == g2 && r.quote_text == t) = false := by
    rw [List.any_append, h02]
    have hne : g ≠ g2 := fun h => hg h.symm
    simp [hne]
  refine ⟨rfl, ?_, ?_, ?_, ?_⟩
  · unfold add_quote
    rw [if_pos hdup]
  · unfold add_quote
    rw [if_pos hdup]
  · rw [List.filter_append, List.filter_eq_nil_iff.mpr ?hnil]
    case hnil =>
      intro r hr hmatch
      rw [List.any_eq_true] at hnot
      exact hnot ⟨r, hr, hmatch⟩
    simp
  · refine ⟨db.next_id + 1, ?_, ?_⟩
    · unfold add_quote
      rw [if_neg (by rw [hdup2]; exact Bool.false_ne_true)]
    · intro r hr
      rw [List.mem_append] at hr
      rcases hr with hr | hr
      · have := hids r hr
        omega
      · have : r = (⟨db.next_id, g, a, t, c, some u, now⟩ : QuoteRow) := by simpa using hr
        subst this
        show db.next_id ≠ db.next_id + 1
        omega

/-- C7 witness: the spec's end-to-end scenario — add "hello" to guild 1 (id 1),
re-add it (conflict, no write), add it to guild 2 (fresh id). -/
theorem c7_per_guild_uniqueness_witness :
    (add_quote ⟨[], 1⟩ 1 none "hello" none 7 0).2 = some 1
    ∧ (add_quote (add_quote ⟨[], 1⟩ 1 none "hello" none 7 0).1 1 none "hello" none 8 1).2
        = none :=
  ⟨(c7_per_guild_uniqueness ⟨[], 1⟩ 1 2 "hello" none none none none none none 7 8 9 0 1 2
      (by decide) rfl rfl (by intro r hr; cases hr)).1,
   (c7_per_guild_uniqueness ⟨[], 1⟩ 1 2 "hello" none none none none none none 7 8 9 0 1 2
      (by decide) rfl rfl (by intro r hr; cases hr)).2.1⟩

/-! ## Edit-modal submission (src/commands/quotes.py lines 526-581) -/

/-- The modal-submit UPDATE (lines 564-572):
UPDATE quotes SET quote_text=$1, author_name=$2, context=$3
WHERE id=$4 AND guild_id=$5. -/
def update_quote_where (rows : List QuoteRow) (newText : String)
    (newAuthor newCtx : Option String) (qid g : Nat) : List QuoteRow :=
  rows.map (fun r =>
    if r.id == qid && r.guild_id == g then
      { r with quote_text := newText, author_name := newAuthor, context := newCtx }
    else r)

/-- `EditQuoteModal.on_submit` (lines 562-581): the permission table, the admin
list and the acting user are all in scope at submission time, but the handler
issues only the (id, guild)-scoped UPDATE above — it performs no permission or
ownership re-check.  The Python `value or None` conversion of the optional
author/context inputs is abstracted as the Option arguments. -/
def edit_modal_on_submit (perms : PermTable) (adminIds : List Nat) (actor : Nat)
    (rows : List QuoteRow) (qid g : Nat) (newText : String)
    (newAuthor newCtx : Option String) : List QuoteRow :=
  update_quote_where rows newText newAuthor newCtx qid g

/-- C10: the edit-modal submission updates every (id, guild)-matching row and
leaves every other row unchanged, and its result is completely independent of
the permission table, the admin list and the acting user — permissions gate only
the construction of the candidate list, not the update itself, so the update
still succeeds after a revocation. -/
theorem c10_submit_unchecked :
    (∀ (perms perms' : PermTable) (adminIds adminIds' : List Nat) (actor actor' : Nat)
       (rows : List QuoteRow) (qid g : Nat) (txt : String) (au cx : Option String),
      edit_modal_on_submit perms adminIds actor rows qid g txt au cx
        = edit_modal_on_submit perms' adminIds' actor' rows qid g txt au cx)
    ∧ (∀ (perms : PermTable) (adminIds : List Nat) (actor : Nat) (rows : List QuoteRow)
         (qid g : Nat) (txt : String) (au cx : Option String) (r : QuoteRow),
        r ∈ rows → r.id = qid → r.guild_id = g →
        { r with quote_text := txt, author_name := au, context := cx }
          ∈ edit_modal_on_submit perms adminIds actor rows qid g txt au cx)
    ∧ (∀ (perms : PermTable) (adminIds : List Nat) (actor : Nat) (rows : List QuoteRow)
         (qid g : Nat) (txt : String) (au cx : Option String) (r : QuoteRow),
        r ∈ rows → ¬(r.id = qid ∧ r.guild_id = g) →
        r ∈ edit_modal_on_submit perms adminIds actor rows qid g txt au cx) := by
  refine ⟨fun _ _ _ _ _ _ _ _ _ _ _ _ => rfl, ?_, ?_⟩
  · intro perms adminIds actor rows qid g txt au cx r hr h1 h2
    unfold edit_modal_on_submit update_quote_where
    rw [List.mem_map]
    have hcond : (r.id == qid && r.guild_id == g) = true := by
      simp [h1, h2]
    refine ⟨r, hr, ?_⟩
    simp only [if_pos hcond]
  · intro perms adminIds actor rows qid g txt au cx r hr h12
    unfold edit_modal_on_submit update_quote_where
    rw [List.mem_map]
    have hcond : ¬((r.id == qid && r.guild_id == g) = true) := by
      simp only [Bool.and_eq_true, beq_iff_eq]
      exact h12
    refine ⟨r, hr, ?_⟩
    simp only [if_neg hcond]

/-- C10 witness: a concrete (id, guild)-matching row is updated even with an
empty permission table and a non-owner actor. -/
theorem c10_submit_unchecked_witness :
    ({ id := 1, guild_id := 1, author_name := none, quote_text := "new",
       context := none, added_by_id := some 7, created_at := 0 } : QuoteRow)
      ∈ edit_modal_on_submit [] [] 9 [⟨1, 1, none, "old", none, some 7, 0⟩] 1 1 "new"
          none none :=
  c10_submit_unchecked.2.1 [] [] 9 [⟨1, 1, none, "old", none, some 7, 0⟩] 1 1 "new"
    none none ⟨1, 1, none, "old", none, some 7, 0⟩ (List.mem_singleton.mpr rfl) rfl rfl

/-! ## Paginated selection engine (src/utils.py lines 91-173) -/

/-- The pagination-relevant state of `PaginatedView`. -/
structure PaginatedView where
  rows : List QuoteRow
  page : Nat
  items_per_page : Nat
  total_pages : Nat
  deriving DecidableEq, Repr

/-- `PaginatedView.__init__` (src/utils.py lines 94-101) with the default
items_per_page = 25; `_update_total_pages` (lines 103-104) sets
total_pages = max(1, (len(rows) + 25 - 1) // 25). -/
def PaginatedView.init (rows : List QuoteRow) : PaginatedView :=
  { rows := rows, page := 0, items_per_page := 25,
    total_pages := max 1 ((rows.length + 25 - 1) / 25) }

/-- `_update_total_pages` (lines 103-104). -/
def PaginatedView.updateTotalPages (v : PaginatedView) : PaginatedView :=
  { v with total_pages := max 1 ((v.rows.length + v.items_per_page - 1) / v.items_per_page) }

/-- The prev/next controls built by `update_view` (lines 141-147): they exist
only when total_pages > 1, with prev.disabled = (page == 0) and
next.disabled = (page >= total_pages - 1); returns (prev.disabled, next.disabled). -/
def PaginatedView.navButtons (v : PaginatedView) : Option (Bool × Bool) :=
  if 1 < v.total_pages then
    some (v.page == 0, decide (v.page ≥ v.total_pages - 1))
  else
    none

/-- The destructive-selection step of `RemoveView.on_select`
(src/commands/quotes.py lines 621-623): drop the removed row from the snapshot,
re-derive total_pages, and clamp the page index with
page = min(page, total_pages - 1). -/
def PaginatedView.removeRow (v : PaginatedView) (quote_id : Nat) : PaginatedView :=
  let v1 := { v with rows := v.rows.filter (fun r => r.id != quote_id) }
  let v2 := v1.updateTotalPages
  { v2 with page := min v2.page (v2.total_pages - 1) }

theorem ceil_pages_spec (N : Nat) :
    1 ≤ max 1 ((N + 25 - 1) / 25) ∧ N ≤ max 1 ((N + 25 - 1) / 25) * 25
    ∧ ∀ m, 1 ≤ m → N ≤ m * 25 → max 1 ((N + 25 - 1) / 25) ≤ m := by
  have hdm := Nat.div_add_mod (N + 24) 25
  have hlt : (N + 24) % 25 < 25 := Nat.mod_lt _ (by omega)
  refine ⟨by omega, by omega, ?_⟩
  intro m h1 h2
  omega

theorem removeRow_eq (v : PaginatedView) (qid : Nat) :
    v.removeRow qid =
      { rows := v.rows.filter (fun r => r.id != qid),
        page := min v.page
          (max 1 (((v.rows.filter (fun r => r.id != qid)).length + v.items_per_page - 1)
            / v.items_per_page) - 1),
        items_per_page := v.items_per_page,
        total_pages := max 1 (((v.rows.filter (fun r => r.id != qid)).length
          + v.items_per_page - 1) / v.items_per_page) } :=
  rfl

/-- C9: the engine computes total_pages = ceil(N/25) with a minimum of 1
(characterized as the least page count ≥ 1 whose pages cover all N rows at 25
per page); when the prev/next controls exist (total_pages > 1) prev is disabled
exactly on page 0 and next exactly on the last page; no controls are built for a
single page; and after a destructive selection removes a row, total_pages is
re-derived by the same rule and the page index is clamped into range, so an
out-of-range empty page is never displayed. -/
theorem c9_pagination :
    (∀ rows : List QuoteRow,
      1 ≤ (PaginatedView.init rows).total_pages
      ∧ rows.length ≤ (PaginatedView.init rows).total_pages * 25
      ∧ ∀ m, 1 ≤ m → rows.length ≤ m * 25 → (PaginatedView.init rows).total_pages ≤ m)
    ∧ (∀ v : PaginatedView, v.page < v.total_pages → 1 < v.total_pages →
        ∃ pr nx, v.navButtons = some (pr, nx)
          ∧ (pr = true ↔ v.page = 0) ∧ (nx = true ↔ v.page = v.total_pages - 1))
    ∧ (∀ v : PaginatedView, v.total_pages ≤ 1 → v.navButtons = none)
    ∧ (∀ (v : PaginatedView) (qid : Nat),
        (v.removeRow qid).page < (v.removeRow qid).total_pages
        ∧ (v.items_per_page = 25 →
            ((v.removeRow qid).rows.length ≤ (v.removeRow qid).total_pages * 25
             ∧ ∀ m, 1 ≤ m → (v.removeRow qid).rows.length ≤ m * 25 →
                 (v.removeRow qid).total_pages ≤ m))) := by
  refine ⟨?_, ?_, ?_, ?_⟩
  · intro rows
    exact ceil_pages_spec rows.length
  · intro v hlt h1
    refine ⟨v.page == 0, decide (v.page ≥ v.total_pages - 1), ?_, ?_, ?_⟩
    · unfold PaginatedView.navButtons
      rw [if_pos h1]
    · exact beq_iff_eq
    · rw [decide_eq_true_iff]
      omega
  · intro v h1
    unfold PaginatedView.navButtons
    rw [if_neg (by omega)]
  · intro v qid
    rw [removeRow_eq]
    constructor
    · show min v.page (max 1 _ - 1) < max 1 _
      omega
    · intro hipp
      rw [hipp]
      exact ⟨(ceil_pages_spec _).2.1, (ceil_pages_spec _).2.2⟩

/-- C9 witness: a view on page 3 of 5 has both controls enabled; prev is enabled
since the page is not 0 and next is enabled since it is not the last page. -/
theorem c9_pagination_witness :
    ∃ pr nx, (⟨[], 3, 25, 5⟩ : PaginatedView).navButtons = some (pr, nx)
      ∧ (pr = true ↔ (3 : Nat) = 0) ∧ (nx = true ↔ (3 : Nat) = 5 - 1) :=
  c9_pagination.2.1 ⟨[], 3, 25, 5⟩ (by decide) (by decide)

end Quork
